import Mathlib

/-!
Verification of the YAML data-loading layer and utility functions of a QA
test-automation framework.

The development shallowly embeds:

  - the parsed YAML value domain (nested mappings, sequences, scalars) as the
    mutual inductive `Yaml` / `YamlList` / `Fields`;
  - the PyYAML mapping construction (later duplicate keys overwrite the value
    of the earlier occurrence, which keeps its position) as `buildDict`;
  - the file contents as the abstract type `Content`, with `safeLoad`
    modelling yaml.safe_load on such a file (empty or whitespace-only text
    parses to None, malformed text raises);
  - the class-level singleton and cache state of BaseYamlDataLoader
    (core/data/yaml_loader.py) as `GState`, with the operations
    `newInstance`, `initLoader`, `construct`, `loadData`, `reload`,
    `get_section`, `get_section_item`, `has_section`, `has_item`,
    `list_sections`, `get_config_value`;
  - the duplicate-key detection of scripts/validate_yaml.py as
    `check_duplicate_keys`;
  - the retry loop wait_with_retry (core/utils/wait_utils.py) as
    `wait_with_retry` over an abstract sequence of attempt outcomes;
  - the text-cleanup helpers sanitize_text and normalize_whitespace
    (core/utils/string_utils.py) over lists of characters, with Python
    str.split whitespace semantics modelled by `isPySpace`.
-/

namespace QAF

/-! ## The YAML value domain -/

mutual

/-- Parsed YAML node: scalar, sequence or mapping. Mappings keep their
entries in source order; a raw (just-parsed) mapping may contain duplicate
keys, which PyYAML construction collapses via `buildDict`. -/
inductive Yaml where
  | null : Yaml
  | boolV (b : Bool) : Yaml
  | intV (n : Int) : Yaml
  | strV (s : String) : Yaml
  | seqV (xs : YamlList) : Yaml
  | mapV (fs : Fields) : Yaml

/-- Sequence of YAML nodes. -/
inductive YamlList where
  | nil : YamlList
  | cons (v : Yaml) (rest : YamlList) : YamlList

/-- Ordered entries of a YAML mapping (string keys, as in the data files). -/
inductive Fields where
  | nil : Fields
  | cons (k : String) (v : Yaml) (rest : Fields) : Fields

end

deriving instance DecidableEq for Yaml
deriving instance DecidableEq for YamlList
deriving instance DecidableEq for Fields

/-- Keys of a mapping, in order, duplicates included. -/
def Fields.keys : Fields → List String
  | .nil => []
  | .cons k _ rest => k :: rest.keys

/-- First-match lookup, the dict read once keys are unique. -/
def Fields.lookup (key : String) : Fields → Option Yaml
  | .nil => none
  | .cons k v rest => if key = k then some v else rest.lookup key

/-- Python dict assignment: an existing key keeps its position and gets the
new value, a new key is appended at the end. -/
def Fields.insertPy (fs : Fields) (key : String) (v : Yaml) : Fields :=
  match fs with
  | .nil => .cons key v .nil
  | .cons k v' rest =>
    if key = k then .cons k v rest else .cons k v' (rest.insertPy key v)

def buildDictGo (acc : Fields) : Fields → Fields
  | .nil => acc
  | .cons k v rest => buildDictGo (acc.insertPy k v) rest

/-- The dict PyYAML construct_mapping builds from the node's entry list:
entries are assigned left to right, so a duplicated key ends up with the
value of its last occurrence, at the position of its first. -/
def buildDict (fs : Fields) : Fields := buildDictGo .nil fs

mutual

/-- PyYAML construction of a parsed node: recursively construct children and
collapse every mapping node with `buildDict`. -/
def constructYaml : Yaml → Yaml
  | .null => .null
  | .boolV b => .boolV b
  | .intV n => .intV n
  | .strV s => .strV s
  | .seqV xs => .seqV (constructList xs)
  | .mapV fs => .mapV (buildDict (constructEntries fs))

def constructList : YamlList → YamlList
  | .nil => .nil
  | .cons v rest => .cons (constructYaml v) (constructList rest)

def constructEntries : Fields → Fields
  | .nil => .nil
  | .cons k v rest => .cons k (constructYaml v) (constructEntries rest)

end

/-- Top-level construction of a document whose root is a mapping. -/
def topConstruct (fs : Fields) : Fields := buildDict (constructEntries fs)

/-! ## File contents and safe_load -/

/-- Abstract contents of a backing YAML file. `empty` stands for a file whose
text is empty or whitespace-only (yaml.safe_load returns None on it);
`wellFormed` for text that parses to a root mapping with the given raw
entries (duplicate keys allowed anywhere); `malformed` for text on which the
parser raises a YAMLError. -/
inductive Content where
  | empty : Content
  | wellFormed (fs : Fields) : Content
  | malformed (msg : String) : Content
deriving DecidableEq

/-- yaml.safe_load on a file's contents: None for empty text, the constructed
document for well-formed text, a parse error otherwise. -/
def safeLoad : Content → Except String (Option Fields)
  | .empty => .ok none
  | .wellFormed fs => .ok (some (topConstruct fs))
  | .malformed msg => .error msg

/-! ## Association-list state helpers -/

/-- Lookup in an association list (first match). -/
def lookupA {α β : Type} [DecidableEq α] (key : α) : List (α × β) → Option β
  | [] => none
  | (k, v) :: rest => if key = k then some v else lookupA key rest

/-- Set a key's value (replace in place, or append when absent). -/
def setA {α β : Type} [DecidableEq α] (key : α) (v : β) : List (α × β) → List (α × β)
  | [] => [(key, v)]
  | (k, v') :: rest =>
    if key = k then (k, v) :: rest else (k, v') :: setA key v rest

/-- Remove a key's entry (Python del). -/
def eraseA {α β : Type} [DecidableEq α] (key : α) : List (α × β) → List (α × β)
  | [] => []
  | (k, v') :: rest =>
    if key = k then rest else (k, v') :: eraseA key rest

/-! ## Loader state machine

BaseYamlDataLoader keeps two class-level dictionaries: `_instances`, mapping
each subclass to its singleton instance, and `_data_cache`, mapping each
subclass to its cached parsed document. An instance carries one attribute,
`yaml_file`, assigned in `__init__` only when the cache entry was absent.
Subclasses are identified here by a string tag (`Cls`), instances by a
numeric identity, and the filesystem is part of the state as an association
list from path to `Content`. -/

abbrev Cls := String
abbrev FilePath := String

/-- Process-wide state: the two class-level caches, the per-instance bound
yaml_file attribute, a counter producing fresh object identities, and the
filesystem the loads read from. -/
structure GState where
  instances : List (Cls × Nat)
  yamlFiles : List (Nat × FilePath)
  dataCache : List (Cls × Fields)
  nextId : Nat
  fsys : List (FilePath × Content)
deriving DecidableEq

/-- Errors the load path can raise: FileNotFoundError when the backing file
is absent, or the propagated yaml.YAMLError on malformed text. -/
inductive LoadErr where
  | fileNotFound (path : FilePath)
  | yamlError (msg : String)
deriving DecidableEq

/-- BaseYamlDataLoader._load_data for class `cls` reading path `file`:
raises FileNotFoundError when the file is absent; parses with safe_load;
turns a None result (empty file) into an empty dict; stores the document in
the class-level cache; propagates any parse error. -/
def loadData (cls : Cls) (file : FilePath) (s : GState) : Except LoadErr GState :=
  match lookupA file s.fsys with
  | none => .error (.fileNotFound file)
  | some content =>
    match safeLoad content with
    | .error msg => .error (.yamlError msg)
    | .ok parsed =>
      let doc := parsed.getD .nil
      .ok { s with dataCache := setA cls doc s.dataCache }

/-- BaseYamlDataLoader.__new__: return the existing singleton instance of
the subclass, or register a fresh one. -/
def newInstance (cls : Cls) (s : GState) : Nat × GState :=
  match lookupA cls s.instances with
  | some iid => (iid, s)
  | none =>
    (s.nextId,
     { s with instances := setA cls s.nextId s.instances,
              nextId := s.nextId + 1 })

/-- BaseYamlDataLoader.__init__: when the subclass has no cached document,
bind the yaml_file attribute and load; otherwise do nothing. -/
def initLoader (cls : Cls) (iid : Nat) (file : FilePath) (s : GState) :
    Except LoadErr GState :=
  match lookupA cls s.dataCache with
  | some _ => .ok s
  | none =>
    loadData cls file { s with yamlFiles := setA iid file s.yamlFiles }

/-- Constructing a loader instance: __new__ then __init__. Returns the
instance identity together with the new state. -/
def construct (cls : Cls) (file : FilePath) (s : GState) :
    Except LoadErr (Nat × GState) :=
  let (iid, s1) := newInstance cls s
  match initLoader cls iid file s1 with
  | .error e => .error e
  | .ok s2 => .ok (iid, s2)

/-- BaseYamlDataLoader.reload: delete this subclass's cache entry, then run
_load_data again against the instance's bound yaml_file. The none branch
(instance without a bound path, an AttributeError in Python) is unreachable
for instances that completed construction and is mapped to an error. -/
def reload (cls : Cls) (iid : Nat) (s : GState) : Except LoadErr GState :=
  match lookupA iid s.yamlFiles with
  | none => .error (.fileNotFound "")
  | some file =>
    loadData cls file { s with dataCache := eraseA cls s.dataCache }

/-! ## Reader operations -/

/-- The data property: the cached document of the subclass, or an empty dict
when no entry is cached. -/
def dataOf (cls : Cls) (s : GState) : Fields :=
  (lookupA cls s.dataCache).getD .nil

/-- Errors the readers can raise. A KeyError carries the requested key and
the list of keys its message enumerates; TypeError and AttributeError model
the exceptions Python raises when a membership test or .keys() call hits a
value of the wrong shape. -/
inductive PyErr where
  | keyError (requested : String) (available : List String)
  | typeError
  | attributeError
deriving DecidableEq

/-- BaseYamlDataLoader.get_section: the section's value, or a KeyError
whose message enumerates the available top-level section names. -/
def get_section (cls : Cls) (s : GState) (sectionName : String) :
    Except PyErr Yaml :=
  match (dataOf cls s).lookup sectionName with
  | none => .error (.keyError sectionName (dataOf cls s).keys)
  | some v => .ok v

/-- Python membership `key in v`: key lookup on a dict, element search on a
list, substring search on a string, TypeError on a non-container. -/
def pyContains (key : String) (v : Yaml) : Except PyErr Bool :=
  match v with
  | .mapV fs => .ok (fs.lookup key).isSome
  | .seqV xs => .ok (yamlListContains xs (.strV key))
  | .strV s => .ok (strContainsSub s key)
  | _ => .error .typeError
where
  yamlListContains : YamlList → Yaml → Bool
    | .nil, _ => false
    | .cons v rest, w => v = w || yamlListContains rest w
  strContainsSub (hay needle : String) : Bool :=
    hay.data.tails.any (fun t => needle.data.isPrefixOf t)

/-- BaseYamlDataLoader.get_section_item: fetch the section, test item
membership, and on absence raise a KeyError enumerating the section's item
keys (computing that list raises AttributeError on a non-dict section, and
indexing a present key raises TypeError on a non-dict section, as in
Python). -/
def get_section_item (cls : Cls) (s : GState) (sectionName itemKey : String) :
    Except PyErr Yaml :=
  match get_section cls s sectionName with
  | .error e => .error e
  | .ok sec =>
    match pyContains itemKey sec with
    | .error e => .error e
    | .ok false =>
      match sec with
      | .mapV fs => .error (.keyError itemKey fs.keys)
      | _ => .error .attributeError
    | .ok true =>
      match sec with
      | .mapV fs => .ok ((fs.lookup itemKey).getD .null)
      | _ => .error .typeError

/-- BaseYamlDataLoader.list_sections: the top-level keys in order. -/
def list_sections (cls : Cls) (s : GState) : List String :=
  (dataOf cls s).keys

/-- BaseYamlDataLoader.has_section: membership of the name among the
top-level keys of the cached document (a dict, so this never raises). -/
def has_section (cls : Cls) (s : GState) (sectionName : String) : Bool :=
  ((dataOf cls s).lookup sectionName).isSome

/-- BaseYamlDataLoader.has_item: get_section inside try/except KeyError,
then Python membership on the section value. Only KeyError is caught, so a
TypeError from the membership test propagates. -/
def has_item (cls : Cls) (s : GState) (sectionName itemKey : String) :
    Except PyErr Bool :=
  match get_section cls s sectionName with
  | .error (.keyError _ _) => .ok false
  | .error e => .error e
  | .ok sec => pyContains itemKey sec

/-- The loop of get_config_value: step through the key chain while the
current value is a dict containing the next key, else return the default. -/
def configWalk (default : Yaml) : Yaml → List String → Yaml
  | cur, [] => cur
  | cur, k :: ks =>
    match cur with
    | .mapV fs =>
      match fs.lookup k with
      | some v => configWalk default v ks
      | none => default
    | _ => default

/-- BaseYamlDataLoader.get_config_value: walk the key chain from the
document root. Total by construction, hence never raises. -/
def get_config_value (cls : Cls) (s : GState) (keys : List String)
    (default : Yaml) : Yaml :=
  configWalk default (.mapV (dataOf cls s)) keys

/-! ## The duplicate-key check of scripts/validate_yaml.py

YamlValidator.check_duplicate_keys parses the file with a custom loader
whose mapping constructor raises a ConstructorError as soon as a key repeats
within one mapping node; that error makes the check return False. Empty
files return True early, and any other parser exception (for instance a
syntax error on malformed text) is swallowed by the fall-back branch, which
returns True. -/

/-- Whether a key list contains a repeat, tested the way the constructor
does (each new key is probed against the mapping built so far). -/
def listHasDup : List String → Bool
  | [] => false
  | k :: rest => rest.contains k || listHasDup rest

mutual

/-- Whether any mapping node anywhere in the value repeats a key. -/
def yamlHasDupKey : Yaml → Bool
  | .null => false
  | .boolV _ => false
  | .intV _ => false
  | .strV _ => false
  | .seqV xs => yamlListHasDupKey xs
  | .mapV fs => listHasDup fs.keys || fieldsHasDupKey fs

def yamlListHasDupKey : YamlList → Bool
  | .nil => false
  | .cons v rest => yamlHasDupKey v || yamlListHasDupKey rest

def fieldsHasDupKey : Fields → Bool
  | .nil => false
  | .cons _ v rest => yamlHasDupKey v || fieldsHasDupKey rest

end

/-- YamlValidator.check_duplicate_keys: True when the file passes the
check. Only a well-formed document with a repeated key in some mapping
fails; empty and malformed files pass (the latter through the fall-back
except branch). -/
def check_duplicate_keys : Content → Bool
  | .empty => true
  | .malformed _ => true
  | .wellFormed fs => !yamlHasDupKey (.mapV fs)

/-! ## wait_with_retry (core/utils/wait_utils.py)

The function body is a for loop over attempts 1..max_attempts. Each
invocation of func is modelled by its observable outcome: a returned value,
an exception matching the caught kinds, or an exception outside them (which
the except clause does not match, so it propagates at once). Sleeping, the
backoff doubling and the on_retry callback have no effect on the returned
value or the control flow and are not modelled. -/

/-- Outcome of one invocation of the retried function. -/
inductive Outcome (T E U : Type) where
  | val (t : T)
  | caught (e : E)
  | uncaught (u : U)

/-- Result of wait_with_retry: a returned value, the re-raised caught
exception of the final attempt, a propagated non-matching exception, or the
implicit None return when max_attempts < 1 leaves the loop body unexecuted. -/
inductive RetryResult (T E U : Type) where
  | ok (t : T)
  | raised (e : E)
  | passedThrough (u : U)
  | noneReturn

/-- The retry loop from attempt number `attempt` with `rem` iterations left:
a successful call returns, a non-matching exception propagates, a matching
exception re-raises on the final attempt and otherwise moves to the next
attempt. -/
def retryGo {T E U : Type} (func : Nat → Outcome T E U) (maxAttempts : Nat) :
    Nat → Nat → RetryResult T E U
  | _, 0 => .noneReturn
  | attempt, rem + 1 =>
    match func attempt with
    | .val t => .ok t
    | .uncaught u => .passedThrough u
    | .caught e =>
      if attempt = maxAttempts then .raised e
      else retryGo func maxAttempts (attempt + 1) rem

/-- wait_with_retry: run the loop from attempt 1 with max_attempts
iterations available. -/
def wait_with_retry {T E U : Type} (func : Nat → Outcome T E U)
    (maxAttempts : Nat) : RetryResult T E U :=
  retryGo func maxAttempts 1 maxAttempts

/-! ## sanitize_text and normalize_whitespace (core/utils/string_utils.py)

Strings are modelled as lists of characters. Python str.split() with no
argument splits on runs of Unicode whitespace and drops empty pieces;
`pySpaceCodes` is CPython's whitespace table. -/

/-- Code points Python treats as whitespace in str.split, str.strip and
str.isspace. -/
def pySpaceCodes : List UInt32 :=
  [9, 10, 11, 12, 13, 28, 29, 30, 31, 32, 0x85, 0xa0, 0x1680,
   0x2000, 0x2001, 0x2002, 0x2003, 0x2004, 0x2005, 0x2006, 0x2007,
   0x2008, 0x2009, 0x200a, 0x2028, 0x2029, 0x202f, 0x205f, 0x3000]

/-- Whether a character is Python whitespace. -/
def isPySpace (c : Char) : Bool := pySpaceCodes.contains c.val

/-- The three replace calls of sanitize_text: tab, newline and carriage
return become a space; every other character is unchanged. -/
def replWs (c : Char) : Char :=
  if c = '\t' || c = '\n' || c = '\r' then ' ' else c

/-- Scanner for str.split(): `acc` holds the reversed characters of the
word being read; whitespace flushes it, other characters extend it. -/
def pySplitGo : List Char → List Char → List (List Char)
  | [], acc => if acc.isEmpty then [] else [acc.reverse]
  | c :: cs, acc =>
    if isPySpace c then
      if acc.isEmpty then pySplitGo cs [] else acc.reverse :: pySplitGo cs []
    else pySplitGo cs (c :: acc)

/-- Python text.split(): maximal runs of non-whitespace characters. -/
def pySplit (s : List Char) : List (List Char) := pySplitGo s []

/-- Suffix of the space-separated join: a space before each word. -/
def joinSpRest : List (List Char) → List Char
  | [] => []
  | w :: ws => ' ' :: (w ++ joinSpRest ws)

/-- Python " ".join(words). -/
def joinSp : List (List Char) → List Char
  | [] => []
  | w :: ws => w ++ joinSpRest ws

/-- Python text.strip(): drop whitespace from both ends. -/
def pyStrip (s : List Char) : List Char :=
  ((s.dropWhile isPySpace).reverse.dropWhile isPySpace).reverse

/-- sanitize_text on characters: empty text is returned as is; otherwise
replace tab, newline and carriage return by spaces, rejoin the
whitespace-split words with single spaces, and strip. -/
def sanitizeChars (s : List Char) : List Char :=
  if s = [] then [] else pyStrip (joinSp (pySplit (s.map replWs)))

/-- normalize_whitespace on characters: empty text is returned as is;
otherwise rejoin the whitespace-split words with single spaces. -/
def normalizeChars (s : List Char) : List Char :=
  if s = [] then [] else joinSp (pySplit s)

/-- sanitize_text on Lean strings. -/
def sanitize_text (s : String) : String := ⟨sanitizeChars s.data⟩

/-- normalize_whitespace on Lean strings. -/
def normalize_whitespace (s : String) : String := ⟨normalizeChars s.data⟩

/-! ## Specification-side definitions and concrete fixtures -/

/-- Modelled from the spec wording for the refinement part of the
get_config_value claim: walk a chain of nested mapping lookups from the
document root, failing the moment a key is absent or the current value
stops being a mapping. -/
def chainLookup : Yaml → List String → Option Yaml
  | cur, [] => some cur
  | cur, k :: ks =>
    match cur with
    | .mapV fs =>
      match fs.lookup k with
      | some v => chainLookup v ks
      | none => none
    | _ => none

/-- Last-occurrence lookup: the value of the last entry carrying the key. -/
def Fields.lookupLast (key : String) : Fields → Option Yaml
  | .nil => none
  | .cons k v rest =>
    match rest.lookupLast key with
    | some w => some w
    | none => if key = k then some v else none

/-- Fresh process state over a given filesystem. -/
def emptyState (fsys : List (FilePath × Content)) : GState :=
  ⟨[], [], [], 0, fsys⟩

/-- The widget_a item of the end-to-end scenario. -/
def widgetFields : Fields :=
  .cons "search_term" (.strV "widget a")
    (.cons "min_price" (.intV 10) (.cons "max_price" (.intV 20) .nil))

/-- Document with one section products holding the widget_a item. -/
def productsDoc : Fields :=
  .cons "products" (.mapV (.cons "widget_a" (.mapV widgetFields) .nil)) .nil

/-- Filesystem holding the products document. -/
def productsFs : List (FilePath × Content) := [("data.yaml", .wellFormed productsDoc)]

/-- State after constructing the products loader on that filesystem. -/
def productsState : GState :=
  ⟨[("ProductsLoader", 0)], [(0, "data.yaml")],
   [("ProductsLoader", productsDoc)], 1, productsFs⟩

/-- Document whose single section holds a scalar value. -/
def scalarDoc : Fields := .cons "a" (.intV 5) .nil

/-- Filesystem holding the scalar-section document. -/
def scalarFs : List (FilePath × Content) := [("s.yaml", .wellFormed scalarDoc)]

/-- State after constructing a loader on the scalar-section document. -/
def scalarState : GState :=
  ⟨[("ScalarLoader", 0)], [(0, "s.yaml")], [("ScalarLoader", scalarDoc)], 1, scalarFs⟩

/-- Raw document mapping the key a twice within the root mapping. -/
def dupDoc : Fields := .cons "a" (.intV 1) (.cons "a" (.intV 2) .nil)

/-- Filesystem holding the duplicate-key document. -/
def dupFs : List (FilePath × Content) := [("dup.yaml", .wellFormed dupDoc)]

/-- State after constructing a loader on the duplicate-key document: the
cached document kept the last value for the duplicated key. -/
def dupState : GState :=
  ⟨[("DupLoader", 0)], [(0, "dup.yaml")],
   [("DupLoader", .cons "a" (.intV 2) .nil)], 1, dupFs⟩

/-! ## Association-list lemmas -/

theorem lookupA_setA_self {α β : Type} [DecidableEq α] (k : α) (v : β)
    (l : List (α × β)) : lookupA k (setA k v l) = some v := by
  induction l with
  | nil => simp [setA, lookupA]
  | cons p rest ih =>
    obtain ⟨k', v'⟩ := p
    by_cases hk : k = k' <;> simp [setA, lookupA, hk, ih]

theorem lookupA_setA_ne {α β : Type} [DecidableEq α] {k k' : α} (v : β)
    (l : List (α × β)) (h : k' ≠ k) :
    lookupA k' (setA k v l) = lookupA k' l := by
  induction l with
  | nil => simp [setA, lookupA, h]
  | cons p rest ih =>
    obtain ⟨k'', v''⟩ := p
    by_cases hk : k = k''
    · subst hk; simp [setA, lookupA, h, ih]
    · by_cases hk' : k' = k'' <;> simp [setA, lookupA, hk, hk', ih]

theorem lookupA_eraseA_ne {α β : Type} [DecidableEq α] {k k' : α}
    (l : List (α × β)) (h : k' ≠ k) :
    lookupA k' (eraseA k l) = lookupA k' l := by
  induction l with
  | nil => simp [eraseA, lookupA]
  | cons p rest ih =>
    obtain ⟨k'', v''⟩ := p
    by_cases hk : k = k''
    · subst hk; simp [eraseA, lookupA, h, ih]
    · by_cases hk' : k' = k'' <;> simp [eraseA, lookupA, hk, hk', ih]

/-! ## Singleton and cache lemmas for the loader -/

/-- A successful construction leaves the subclass with a registered
singleton instance and a cached document. -/
theorem construct_ok_inv (cls : Cls) (f : FilePath) (s s' : GState) (i : Nat)
    (h : construct cls f s = .ok (i, s')) :
    lookupA cls s'.instances = some i ∧ (lookupA cls s'.dataCache).isSome := by
  unfold construct newInstance initLoader loadData at h
  cases hinst : lookupA cls s.instances with
  | some iid =>
    simp only [hinst] at h
    cases hcache : lookupA cls s.dataCache with
    | some doc =>
      simp only [hcache, Except.ok.injEq, Prod.mk.injEq] at h
      obtain ⟨hi, hs⟩ := h
      subst hi
      rw [← hs]
      simp [hinst, hcache]
    | none =>
      simp only [hcache] at h
      cases hfs : lookupA f s.fsys with
      | none => simp [hfs] at h
      | some content =>
        simp only [hfs] at h
        cases hp : safeLoad content with
        | error msg => simp [hp] at h
        | ok parsed =>
          simp only [hp, Except.ok.injEq, Prod.mk.injEq] at h
          obtain ⟨hi, hs⟩ := h
          subst hi
          rw [← hs]
          simp [hinst, lookupA_setA_self]
  | none =>
    simp only [hinst] at h
    cases hcache : lookupA cls s.dataCache with
    | some doc =>
      simp only [hcache, Except.ok.injEq, Prod.mk.injEq] at h
      obtain ⟨hi, hs⟩ := h
      subst hi
      rw [← hs]
      simp [lookupA_setA_self, hcache]
    | none =>
      simp only [hcache] at h
      cases hfs : lookupA f s.fsys with
      | none => simp [hfs] at h
      | some content =>
        simp only [hfs] at h
        cases hp : safeLoad content with
        | error msg => simp [hp] at h
        | ok parsed =>
          simp only [hp, Except.ok.injEq, Prod.mk.injEq] at h
          obtain ⟨hi, hs⟩ := h
          subst hi
          rw [← hs]
          simp [lookupA_setA_self]

/-- C1: for every BaseYamlDataLoader subclass, two consecutive get_section
calls observe the identical cached document unless reload() intervenes:
after a first successful construction, a second construction through an
independent handle returns the same shared instance and leaves the state,
hence the one class-level cache entry, untouched, and every get_section
call is a pure read determined by that single cached document. -/
theorem load_once_shared_document (cls : Cls) (f f' : FilePath)
    (s s1 : GState) (i1 : Nat)
    (h1 : construct cls f s = .ok (i1, s1)) :
    construct cls f' s1 = .ok (i1, s1)
    ∧ ∃ doc, lookupA cls s1.dataCache = some doc
        ∧ ∀ name, get_section cls s1 name =
            (match doc.lookup name with
             | some v => .ok v
             | none => .error (.keyError name doc.keys)) := by
  obtain ⟨hinst, hcache⟩ := construct_ok_inv cls f s s1 i1 h1
  obtain ⟨doc, hdoc⟩ := Option.isSome_iff_exists.mp hcache
  refine ⟨?_, doc, hdoc, ?_⟩
  · unfold construct newInstance initLoader
    simp [hinst, hdoc]
  · intro name
    unfold get_section dataOf
    simp only [hdoc, Option.getD_some]
    cases Fields.lookup name doc <;> rfl

/-- C1 witness: on a concrete filesystem, the first construction loads the
products document and the second construction, through a fresh handle with a
different path argument, returns the same instance and state. -/
theorem load_once_shared_document_witness :
    construct "ProductsLoader" "other.yaml" productsState = .ok (0, productsState)
    ∧ ∃ doc, lookupA "ProductsLoader" productsState.dataCache = some doc
        ∧ ∀ name, get_section "ProductsLoader" productsState name =
            (match doc.lookup name with
             | some v => .ok v
             | none => .error (.keyError name doc.keys)) :=
  load_once_shared_document "ProductsLoader" "data.yaml" "other.yaml"
    (emptyState productsFs) productsState 0 rfl

/-- C9: once the subclass has a cached document and a registered singleton,
constructing again with any path argument and against any filesystem
returns the existing instance and changes nothing: the bound yaml_file, the
cached document and every other state component are untouched, and the
result does not depend on the filesystem, so no file is accessed. -/
theorem cached_construct_ignores_path (cls : Cls) (s : GState) (i : Nat)
    (hinst : lookupA cls s.instances = some i)
    (hcache : (lookupA cls s.dataCache).isSome) :
    ∀ (f' : FilePath) (fsys' : List (FilePath × Content)),
      construct cls f' { s with fsys := fsys' }
        = .ok (i, { s with fsys := fsys' }) := by
  intro f' fsys'
  obtain ⟨doc, hdoc⟩ := Option.isSome_iff_exists.mp hcache
  unfold construct newInstance initLoader
  simp [hinst, hdoc]

/-- C9 witness: with the products document cached, construction with a
different path against an empty filesystem still returns instance 0 and the
unchanged state. -/
theorem cached_construct_ignores_path_witness :
    construct "ProductsLoader" "different.yaml" { productsState with fsys := [] }
      = .ok (0, { productsState with fsys := [] }) :=
  cached_construct_ignores_path "ProductsLoader" productsState 0 rfl rfl
    "different.yaml" []

/-- C2: reload deletes exactly this dataset type's cache entry and
re-parses the instance's bound file, so the new cached document is the
construction of the artifact content present in the filesystem at reload
time, whatever was cached before; every other dataset type's cache entry is
unchanged, as are the instance registry, the bound paths and the
filesystem. -/
theorem reload_reparses_and_frames (cls : Cls) (iid : Nat) (s : GState)
    (file : FilePath) (raw : Fields)
    (hfile : lookupA iid s.yamlFiles = some file)
    (hcontent : lookupA file s.fsys = some (.wellFormed raw)) :
    reload cls iid s =
      .ok { s with dataCache := setA cls (topConstruct raw) (eraseA cls s.dataCache) }
    ∧ dataOf cls
        { s with dataCache := setA cls (topConstruct raw) (eraseA cls s.dataCache) }
        = topConstruct raw
    ∧ ∀ cls', cls' ≠ cls →
        lookupA cls' (setA cls (topConstruct raw) (eraseA cls s.dataCache))
          = lookupA cls' s.dataCache := by
  refine ⟨?_, ?_, ?_⟩
  · unfold reload loadData
    simp [hfile, hcontent, safeLoad]
  · unfold dataOf
    simp [lookupA_setA_self]
  · intro cls' h
    rw [lookupA_setA_ne _ _ h, lookupA_eraseA_ne _ h]

/-- C2 witness: the products loader holds the products document; the
backing file now holds the duplicate-key document, and reload swaps the
cache entry to the construction of the new content while an unrelated
dataset type's entry is untouched. -/
theorem reload_reparses_and_frames_witness :
    (reload "ProductsLoader" 0
        { productsState with fsys := [("data.yaml", .wellFormed dupDoc)] } =
      .ok { productsState with
              fsys := [("data.yaml", .wellFormed dupDoc)],
              dataCache := setA "ProductsLoader" (topConstruct dupDoc)
                (eraseA "ProductsLoader" productsState.dataCache) })
    ∧ dataOf "ProductsLoader"
        { productsState with
            fsys := [("data.yaml", .wellFormed dupDoc)],
            dataCache := setA "ProductsLoader" (topConstruct dupDoc)
              (eraseA "ProductsLoader" productsState.dataCache) }
        = topConstruct dupDoc := by
  have h := reload_reparses_and_frames "ProductsLoader" 0
    { productsState with fsys := [("data.yaml", .wellFormed dupDoc)] }
    "data.yaml" dupDoc rfl rfl
  exact ⟨h.1, h.2.1⟩

/-- C4: the load algorithm distinguishes missing from empty artifacts. A
file absent at the bound path makes the load, and a reload bound to that
path, fail with FileNotFoundError. A present file whose text is empty or
whitespace-only loads successfully as an empty document, after which
list_sections is empty and has_section is false on every name. -/
theorem load_missing_vs_empty (cls : Cls) (file : FilePath) (iid : Nat)
    (s : GState) :
    (lookupA file s.fsys = none →
       loadData cls file s = .error (.fileNotFound file)
       ∧ (lookupA iid s.yamlFiles = some file →
            reload cls iid s = .error (.fileNotFound file)))
    ∧ (lookupA file s.fsys = some .empty →
        loadData cls file s = .ok { s with dataCache := setA cls .nil s.dataCache }
        ∧ list_sections cls { s with dataCache := setA cls .nil s.dataCache } = []
        ∧ ∀ name,
            has_section cls { s with dataCache := setA cls .nil s.dataCache } name
              = false) := by
  constructor
  · intro habs
    constructor
    · unfold loadData
      simp [habs]
    · intro hbound
      unfold reload loadData
      simp [hbound, habs]
  · intro hempty
    refine ⟨?_, ?_, ?_⟩
    · unfold loadData
      simp [hempty, safeLoad]
    · unfold list_sections dataOf
      simp [lookupA_setA_self, Fields.keys]
    · intro name
      unfold has_section dataOf
      simp [lookupA_setA_self, Fields.lookup]

/-- C4 witness: loading a path absent from a concrete filesystem fails with
FileNotFoundError, and loading a concrete empty file succeeds with zero
sections and a false has_section on a sample name. -/
theorem load_missing_vs_empty_witness :
    (loadData "L" "absent.yaml" (emptyState []) =
        .error (.fileNotFound "absent.yaml"))
    ∧ (loadData "L" "e.yaml" (emptyState [("e.yaml", .empty)]) =
        .ok { emptyState [("e.yaml", .empty)] with
                dataCache := setA "L" .nil (emptyState [("e.yaml", .empty)]).dataCache }
        ∧ list_sections "L"
            { emptyState [("e.yaml", .empty)] with
                dataCache := setA "L" .nil (emptyState [("e.yaml", .empty)]).dataCache }
            = []
        ∧ ∀ name,
            has_section "L"
              { emptyState [("e.yaml", .empty)] with
                  dataCache := setA "L" .nil (emptyState [("e.yaml", .empty)]).dataCache }
              name = false) := by
  constructor
  · exact ((load_missing_vs_empty "L" "absent.yaml" 0 (emptyState [])).1 rfl).1
  · exact (load_missing_vs_empty "L" "e.yaml" 0 (emptyState [("e.yaml", .empty)])).2 rfl

/-- C5: on any loaded document, get_section on an absent name raises a
KeyError whose enumeration is exactly the list of present section names;
get_section_item raises that same error for an absent section, and for a
present mapping section with an absent item key it raises a KeyError whose
enumeration is exactly that section's item keys. -/
theorem notfound_enumerates_keys (cls : Cls) (s : GState) :
    (∀ name, (dataOf cls s).lookup name = none →
        get_section cls s name = .error (.keyError name (dataOf cls s).keys))
    ∧ (∀ name key, (dataOf cls s).lookup name = none →
        get_section_item cls s name key
          = .error (.keyError name (dataOf cls s).keys))
    ∧ (∀ name key es, (dataOf cls s).lookup name = some (.mapV es) →
        es.lookup key = none →
        get_section_item cls s name key = .error (.keyError key es.keys)) := by
  refine ⟨?_, ?_, ?_⟩
  · intro name h
    unfold get_section
    simp [h]
  · intro name key h
    unfold get_section_item get_section
    simp [h]
  · intro name key es h hk
    unfold get_section_item get_section pyContains
    simp [h, hk]

/-- C5 witness: on the loaded products document, a missing section is
reported with the section list, both through get_section and
get_section_item, and a missing item key is reported with the item keys of
the products section. -/
theorem notfound_enumerates_keys_witness :
    get_section "ProductsLoader" productsState "missing"
      = .error (.keyError "missing" (dataOf "ProductsLoader" productsState).keys)
    ∧ get_section_item "ProductsLoader" productsState "missing" "k"
      = .error (.keyError "missing" (dataOf "ProductsLoader" productsState).keys)
    ∧ get_section_item "ProductsLoader" productsState "products" "nope"
      = .error (.keyError "nope"
          (Fields.cons "widget_a" (.mapV widgetFields) .nil).keys) := by
  have h := notfound_enumerates_keys "ProductsLoader" productsState
  exact ⟨h.1 "missing" rfl, h.2.1 "missing" "k" rfl,
         h.2.2 "products" "nope" (Fields.cons "widget_a" (.mapV widgetFields) .nil)
           rfl rfl⟩

/-- C6: get_config_value equals the default-completed chain of nested
mapping lookups from the document root (so it returns the default as soon
as a key is absent or the current value is not a mapping, and, being a
total function, never raises); on the concrete products document obtained
by an actual construction, the chain products, widget_a, min_price yields
10 and the chain products, missing_key yields the default x. -/
theorem get_config_value_contract :
    (∀ (cls : Cls) (s : GState) (keys : List String) (default : Yaml),
        get_config_value cls s keys default
          = (chainLookup (.mapV (dataOf cls s)) keys).getD default)
    ∧ construct "ProductsLoader" "data.yaml" (emptyState productsFs)
        = .ok (0, productsState)
    ∧ get_config_value "ProductsLoader" productsState
        ["products", "widget_a", "min_price"] .null = .intV 10
    ∧ get_config_value "ProductsLoader" productsState ["products", "missing_key"]
        (.strV "x") = .strV "x" := by
  refine ⟨?_, rfl, rfl, rfl⟩
  intro cls s keys default
  unfold get_config_value
  generalize (Yaml.mapV (dataOf cls s)) = cur
  induction keys generalizing cur with
  | nil => rfl
  | cons k ks ih =>
    cases cur with
    | mapV fs =>
      simp only [configWalk, chainLookup]
      cases fs.lookup k with
      | some v => exact ih v
      | none => rfl
    | null => rfl
    | boolV b => rfl
    | intV n => rfl
    | strV str => rfl
    | seqV xs => rfl

/-- C7 counterexample: the loader happily loads a document whose section a
holds the scalar 5; has_item on that section then raises TypeError (the
membership test on an int), so has_item is not raise-free on every loaded
document. -/
theorem has_item_raises_on_scalar_section :
    construct "ScalarLoader" "s.yaml" (emptyState scalarFs) = .ok (0, scalarState)
    ∧ has_item "ScalarLoader" scalarState "a" "x" = .error .typeError :=
  ⟨rfl, rfl⟩

/-- C7 amended: has_section never raises and holds exactly for present
top-level names; has_item never raises and matches item-key membership
provided the section it reaches is absent or is a mapping (on a loaded
document with a scalar section the Python membership test raises
TypeError). -/
theorem has_checks_total_on_mapping_sections (cls : Cls) (s : GState)
    (sectionName itemKey : String) :
    has_section cls s sectionName = ((dataOf cls s).lookup sectionName).isSome
    ∧ ((dataOf cls s).lookup sectionName = none →
        has_item cls s sectionName itemKey = .ok false)
    ∧ (∀ es, (dataOf cls s).lookup sectionName = some (.mapV es) →
        has_item cls s sectionName itemKey = .ok (es.lookup itemKey).isSome) := by
  refine ⟨rfl, ?_, ?_⟩
  · intro h
    unfold has_item get_section
    simp [h]
  · intro es h
    unfold has_item get_section
    simp [h, pyContains]

/-- C7 witness: on the loaded products document, has_section and has_item
answer true for present names, and has_item answers false without raising
for an absent section. -/
theorem has_checks_total_witness :
    has_section "ProductsLoader" productsState "products"
      = ((dataOf "ProductsLoader" productsState).lookup "products").isSome
    ∧ has_item "ProductsLoader" productsState "nope" "k" = .ok false
    ∧ has_item "ProductsLoader" productsState "products" "widget_a"
      = .ok ((Fields.cons "widget_a" (.mapV widgetFields) .nil).lookup
          "widget_a").isSome := by
  have h1 := has_checks_total_on_mapping_sections "ProductsLoader" productsState
    "products" "widget_a"
  have h2 := has_checks_total_on_mapping_sections "ProductsLoader" productsState
    "nope" "k"
  exact ⟨h1.1, h2.2.1 rfl,
         h1.2.2 (Fields.cons "widget_a" (.mapV widgetFields) .nil) rfl⟩

/-! ## Duplicate keys: last value wins in the loader, only the validator
objects -/

theorem lookup_insertPy : ∀ (fs : Fields) (k key : String) (v : Yaml),
    (fs.insertPy k v).lookup key = if key = k then some v else fs.lookup key
  | .nil, k, key, v => by simp [Fields.insertPy, Fields.lookup]
  | .cons k' v' rest, k, key, v => by
    by_cases h : k = k'
    · subst h
      by_cases h2 : key = k <;> simp [Fields.insertPy, Fields.lookup, h2]
    · by_cases h2 : key = k'
      · subst h2
        simp [Fields.insertPy, Fields.lookup, Ne.symm h, h]
      · simp [Fields.insertPy, Fields.lookup, h, h2,
          lookup_insertPy rest k key v]

theorem lookup_buildDictGo : ∀ (fs acc : Fields) (key : String),
    (buildDictGo acc fs).lookup key
      = match fs.lookupLast key with
        | some w => some w
        | none => acc.lookup key
  | .nil, acc, key => by simp [buildDictGo, Fields.lookupLast]
  | .cons k v rest, acc, key => by
    simp only [buildDictGo]
    rw [lookup_buildDictGo rest (acc.insertPy k v) key]
    cases h : rest.lookupLast key with
    | some w => simp [Fields.lookupLast, h]
    | none =>
      simp only [Fields.lookupLast, h, lookup_insertPy]
      by_cases h2 : key = k <;> simp [h2]

/-- In the dict PyYAML builds, every key ends up with the value of its last
occurrence in the source mapping. -/
theorem lookup_buildDict (fs : Fields) (key : String) :
    (buildDict fs).lookup key = fs.lookupLast key := by
  unfold buildDict
  rw [lookup_buildDictGo]
  cases h : fs.lookupLast key <;> simp [Fields.lookup]

/-- C3 counterexample: a source document mapping the key a twice inside the
root mapping (to 1 and then 2) is loaded without any error by the loader,
and a subsequent get_section returns 2, the silently kept last value; the
third conjunct records that the duplicate really is there. -/
theorem dup_keys_load_succeeds_keeping_last :
    construct "DupLoader" "dup.yaml" (emptyState dupFs) = .ok (0, dupState)
    ∧ get_section "DupLoader" dupState "a" = .ok (.intV 2)
    ∧ listHasDup dupDoc.keys = true :=
  ⟨rfl, rfl, rfl⟩

/-- C3 amended: duplicate keys are not a load-time error of the loader. The
load path parses with yaml.safe_load, which accepts the document and keeps,
for every key, the value of its last occurrence; only the separate
validation script's check_duplicate_keys flags such a document. -/
theorem dup_keys_validator_flags_loader_keeps_last (raw : Fields) (cls : Cls)
    (file : FilePath) (s : GState)
    (hdup : yamlHasDupKey (.mapV raw) = true)
    (hfile : lookupA file s.fsys = some (.wellFormed raw)) :
    check_duplicate_keys (.wellFormed raw) = false
    ∧ loadData cls file s
        = .ok { s with dataCache := setA cls (topConstruct raw) s.dataCache }
    ∧ ∀ key, (topConstruct raw).lookup key
        = (constructEntries raw).lookupLast key := by
  refine ⟨?_, ?_, ?_⟩
  · simp [check_duplicate_keys, hdup]
  · unfold loadData
    simp [hfile, safeLoad]
  · intro key
    unfold topConstruct
    exact lookup_buildDict _ key

/-- C3 amended witness: on the concrete duplicate-key document the
validator reports a failure while the loader caches the document with the
last value for the duplicated key. -/
theorem dup_keys_validator_flags_witness :
    check_duplicate_keys (.wellFormed dupDoc) = false
    ∧ loadData "DupLoader" "dup.yaml" (emptyState dupFs)
        = .ok { emptyState dupFs with
                  dataCache := setA "DupLoader" (topConstruct dupDoc)
                    (emptyState dupFs).dataCache }
    ∧ ∀ key, (topConstruct dupDoc).lookup key
        = (constructEntries dupDoc).lookupLast key :=
  dup_keys_validator_flags_loader_keeps_last dupDoc "DupLoader" "dup.yaml"
    (emptyState dupFs) rfl rfl

/-! ## Retry loop lemmas -/

/-- The loop result only depends on the outcomes of attempts inside the
window still to be run. -/
theorem retryGo_congr {T E U : Type} (f g : Nat → Outcome T E U) (m : Nat) :
    ∀ (rem attempt : Nat),
      (∀ i, attempt ≤ i → i < attempt + rem → f i = g i) →
      retryGo f m attempt rem = retryGo g m attempt rem := by
  intro rem
  induction rem with
  | zero => intro attempt h; rfl
  | succ r ih =>
    intro attempt h
    simp only [retryGo]
    rw [h attempt (le_refl _) (by omega)]
    cases g attempt with
    | val t => rfl
    | uncaught u => rfl
    | caught e =>
      by_cases ha : attempt = m
      · simp [ha]
      · simp only [ha, if_false]
        exact ih (attempt + 1) (fun i h1 h2 => h i (by omega) (by omega))

/-- When every attempt before j raises a caught exception and attempt j
returns, the loop returns j's value. -/
theorem retryGo_first_success {T E U : Type} (f : Nat → Outcome T E U)
    (m : Nat) (t : T) :
    ∀ (rem attempt j : Nat), attempt + rem = m + 1 → attempt ≤ j → j ≤ m →
      (∀ i, attempt ≤ i → i < j → ∃ e, f i = .caught e) →
      f j = .val t → retryGo f m attempt rem = .ok t := by
  intro rem
  induction rem with
  | zero => intro attempt j h1 h2 h3 _ _; omega
  | succ r ih =>
    intro attempt j h1 h2 h3 hprev hj
    simp only [retryGo]
    by_cases haj : attempt = j
    · subst haj
      rw [hj]
    · obtain ⟨e, he⟩ := hprev attempt (le_refl _) (by omega)
      rw [he]
      have hm : attempt ≠ m := by omega
      simp only [hm, if_false]
      exact ih (attempt + 1) j (by omega) (by omega) h3
        (fun i hi1 hi2 => hprev i (by omega) hi2) hj

/-- When every attempt in the window raises a caught exception, the loop
re-raises the exception of the final attempt. -/
theorem retryGo_all_caught {T E U : Type} (f : Nat → Outcome T E U) (m : Nat)
    (es : Nat → E) :
    ∀ (rem attempt : Nat), attempt + rem = m + 1 → 1 ≤ rem →
      (∀ i, attempt ≤ i → i ≤ m → f i = .caught (es i)) →
      retryGo f m attempt rem = .raised (es m) := by
  intro rem
  induction rem with
  | zero => intro attempt h1 h2 _; omega
  | succ r ih =>
    intro attempt h1 _ hall
    simp only [retryGo]
    rw [hall attempt (le_refl _) (by omega)]
    by_cases ha : attempt = m
    · simp [ha]
    · simp only [ha, if_false]
      exact ih (attempt + 1) (by omega) (by omega)
        (fun i hi1 hi2 => hall i (by omega) hi2)

/-- C8: wait_with_retry consults the retried function on at most
max_attempts attempts (its result is unchanged by altering outcomes beyond
that window); it returns the value of the first invocation that does not
raise a caught exception; and when all max_attempts invocations raise
caught exceptions it re-raises the one observed on the final attempt. -/
theorem wait_with_retry_contract {T E U : Type} :
    (∀ (f g : Nat → Outcome T E U) (m : Nat),
        (∀ i, 1 ≤ i → i ≤ m → f i = g i) →
        wait_with_retry f m = wait_with_retry g m)
    ∧ (∀ (f : Nat → Outcome T E U) (m j : Nat) (t : T),
        1 ≤ j → j ≤ m →
        (∀ i, 1 ≤ i → i < j → ∃ e, f i = .caught e) →
        f j = .val t → wait_with_retry f m = .ok t)
    ∧ (∀ (f : Nat → Outcome T E U) (m : Nat) (es : Nat → E),
        1 ≤ m →
        (∀ i, 1 ≤ i → i ≤ m → f i = .caught (es i)) →
        wait_with_retry f m = .raised (es m)) := by
  refine ⟨?_, ?_, ?_⟩
  · intro f g m h
    unfold wait_with_retry
    exact retryGo_congr f g m m 1 (fun i h1 h2 => h i h1 (by omega))
  · intro f m j t h1 h2 hprev hj
    unfold wait_with_retry
    exact retryGo_first_success f m t m 1 j (by omega) h1 h2 hprev hj
  · intro f m es h1 hall
    unfold wait_with_retry
    exact retryGo_all_caught f m es m 1 (by omega) h1 hall

/-- C8 witness: two concrete functions agreeing on attempts 1..3 give the
same result for 3 attempts; a function failing with caught exceptions on
attempts 1 and 2 and succeeding on attempt 3 yields its value within 5
attempts; a function raising the caught exception i on every attempt i
makes wait_with_retry with 2 attempts re-raise exception 2, the final
attempt's. -/
theorem wait_with_retry_contract_witness :
    wait_with_retry (T := Nat) (U := Unit)
        (fun i => if i ≤ 3 then Outcome.caught i else Outcome.val 1) 3
      = wait_with_retry
          (fun i => if i ≤ 3 then Outcome.caught i else Outcome.val 2) 3
    ∧ wait_with_retry (T := Nat) (U := Unit)
        (fun i => if i < 3 then Outcome.caught i else Outcome.val 10) 5
      = .ok 10
    ∧ wait_with_retry (T := Nat) (U := Unit)
        (fun i => Outcome.caught ((fun j => j) i)) 2
      = .raised ((fun j => j) 2) := by
  refine ⟨?_, ?_, ?_⟩
  · exact wait_with_retry_contract.1
      (fun i => if i ≤ 3 then Outcome.caught i else Outcome.val 1)
      (fun i => if i ≤ 3 then Outcome.caught i else Outcome.val 2) 3
      (fun i hi1 hi2 => by simp [hi2])
  · exact wait_with_retry_contract.2.1
      (fun i => if i < 3 then Outcome.caught i else Outcome.val 10) 5 3 10
      (by omega) (by omega)
      (fun i hi1 hi2 => ⟨i, by simp [hi2]⟩) (by simp)
  · exact wait_with_retry_contract.2.2
      (fun i => Outcome.caught ((fun j => j) i)) 2 (fun j => j) (by omega)
      (fun i hi1 hi2 => rfl)

/-! ## Text cleanup lemmas -/

theorem isPySpace_replWs (c : Char) : isPySpace (replWs c) = isPySpace c := by
  unfold replWs
  split
  · rename_i h
    simp only [Bool.or_eq_true, decide_eq_true_eq] at h
    rcases h with (h | h) | h <;> subst h <;> decide
  · rfl

theorem replWs_eq_self (c : Char) (h : isPySpace c = false) : replWs c = c := by
  unfold replWs
  split
  · rename_i h2
    simp only [Bool.or_eq_true, decide_eq_true_eq] at h2
    rcases h2 with (h2 | h2) | h2 <;> subst h2 <;> exact absurd h (by decide)
  · rfl

theorem pySplitGo_map_replWs (s : List Char) :
    ∀ acc, pySplitGo (s.map replWs) acc = pySplitGo s acc := by
  induction s with
  | nil => intro acc; rfl
  | cons c cs ih =>
    intro acc
    simp only [List.map_cons, pySplitGo, isPySpace_replWs]
    by_cases hc : isPySpace c
    · simp [hc, ih]
    · have hc' : isPySpace c = false := by simpa using hc
      simp [hc', ih, replWs_eq_self c hc']

theorem pySplitGo_words (s : List Char) :
    ∀ acc, (∀ c ∈ acc, isPySpace c = false) →
      ∀ w ∈ pySplitGo s acc, w ≠ [] ∧ ∀ c ∈ w, isPySpace c = false := by
  induction s with
  | nil =>
    intro acc hacc w hw
    cases acc with
    | nil => simp [pySplitGo] at hw
    | cons a t =>
      have hw' : w = (a :: t).reverse := by simpa [pySplitGo] using hw
      subst hw'
      refine ⟨by simp, ?_⟩
      intro c hc
      exact hacc c (List.mem_reverse.mp hc)
  | cons c cs ih =>
    intro acc hacc w hw
    by_cases hc : isPySpace c
    · cases acc with
      | nil =>
        simp only [pySplitGo, hc, if_true, List.isEmpty_nil] at hw
        exact ih [] (by simp) w (by simpa using hw)
      | cons a t =>
        simp only [pySplitGo, hc, if_true, List.isEmpty_cons] at hw
        rcases (by simpa using hw : w = (a :: t).reverse ∨ w ∈ pySplitGo cs []) with
          h | h
        · subst h
          refine ⟨by simp, ?_⟩
          intro c' hc'
          exact hacc c' (List.mem_reverse.mp hc')
        · exact ih [] (by simp) w h
    · have hc' : isPySpace c = false := by simpa using hc
      simp only [pySplitGo, hc', Bool.false_eq_true, if_false] at hw
      refine ih (c :: acc) ?_ w hw
      intro d hd
      rcases List.mem_cons.mp hd with h | h
      · subst h; exact hc'
      · exact hacc d h

theorem pySplitGo_append_word (w : List Char)
    (hw : ∀ c ∈ w, isPySpace c = false) :
    ∀ (t acc : List Char), pySplitGo (w ++ t) acc = pySplitGo t (w.reverse ++ acc) := by
  induction w with
  | nil => intro t acc; simp
  | cons c w' ih =>
    intro t acc
    have hc : isPySpace c = false := hw c (by simp)
    simp only [List.cons_append, pySplitGo, hc, Bool.false_eq_true, if_false,
      List.append_eq]
    rw [ih (fun c' h => hw c' (by simp [h])) t (c :: acc)]
    simp [List.append_assoc]

theorem pySplitGo_joinSpRest (ws : List (List Char))
    (hws : ∀ w ∈ ws, w ≠ [] ∧ ∀ c ∈ w, isPySpace c = false) :
    ∀ acc : List Char, acc ≠ [] →
      pySplitGo (joinSpRest ws) acc = acc.reverse :: ws := by
  induction ws with
  | nil =>
    intro acc hacc
    cases acc with
    | nil => exact absurd rfl hacc
    | cons a t => simp [joinSpRest, pySplitGo]
  | cons w rest ih =>
    intro acc hacc
    have hsp : isPySpace ' ' = true := by decide
    cases acc with
    | nil => exact absurd rfl hacc
    | cons a t =>
      simp only [joinSpRest, pySplitGo, hsp, if_true, List.isEmpty_cons]
      rw [pySplitGo_append_word w (hws w (by simp)).2 (joinSpRest rest) []]
      rw [List.append_nil]
      have hwne : w.reverse ≠ [] := by
        simp [List.reverse_eq_nil_iff]
        exact (hws w (by simp)).1
      rw [ih (fun w' h => hws w' (by simp [h])) w.reverse hwne]
      simp

theorem pySplit_joinSp (ws : List (List Char))
    (hws : ∀ w ∈ ws, w ≠ [] ∧ ∀ c ∈ w, isPySpace c = false) :
    pySplit (joinSp ws) = ws := by
  cases ws with
  | nil => rfl
  | cons w rest =>
    unfold pySplit joinSp
    rw [pySplitGo_append_word w (hws w (by simp)).2 (joinSpRest rest) []]
    rw [List.append_nil]
    have hwne : w.reverse ≠ [] := by
      simp [List.reverse_eq_nil_iff]
      exact (hws w (by simp)).1
    rw [pySplitGo_joinSpRest rest (fun w' h => hws w' (by simp [h])) w.reverse hwne]
    simp

theorem dropWhile_eq_self_of_head (l : List Char)
    (h : ∀ c, l.head? = some c → isPySpace c = false) :
    l.dropWhile isPySpace = l := by
  cases l with
  | nil => rfl
  | cons c t => simp [List.dropWhile_cons, h c rfl]

theorem mem_of_getLast?Char {l : List Char} {c : Char}
    (h : l.getLast? = some c) : c ∈ l := by
  rw [List.getLast?_eq_head?_reverse] at h
  cases hrev : l.reverse with
  | nil => rw [hrev] at h; simp at h
  | cons a t =>
    rw [hrev] at h
    simp only [List.head?_cons, Option.some.injEq] at h
    have hmem : c ∈ l.reverse := by rw [hrev, ← h]; simp
    exact List.mem_reverse.mp hmem

theorem joinSp_getLast?_nonspace (ws : List (List Char))
    (hws : ∀ w ∈ ws, w ≠ [] ∧ ∀ c ∈ w, isPySpace c = false) :
    ∀ c, (joinSp ws).getLast? = some c → isPySpace c = false := by
  induction ws with
  | nil => intro c h; simp [joinSp] at h
  | cons w rest ih =>
    intro c h
    cases rest with
    | nil =>
      simp only [joinSp, joinSpRest, List.append_nil] at h
      exact (hws w (by simp)).2 c (mem_of_getLast?Char h)
    | cons w2 rest2 =>
      have hrw : joinSp (w :: w2 :: rest2)
          = w ++ ' ' :: joinSp (w2 :: rest2) := by
        simp [joinSp, joinSpRest]
      rw [hrw, List.getLast?_append_cons] at h
      have hne : joinSp (w2 :: rest2) ≠ [] := by
        have : w2 ≠ [] := (hws w2 (by simp)).1
        cases hw2 : w2 with
        | nil => exact absurd hw2 this
        | cons a t => simp [joinSp, hw2]
      cases hj : joinSp (w2 :: rest2) with
      | nil => exact absurd hj hne
      | cons a t =>
        rw [hj, List.getLast?_cons_cons] at h
        refine ih (fun w' hmem => hws w' (by simp [List.mem_cons.mp hmem])) c ?_
        rw [hj]
        exact h

theorem pyStrip_eq_self (l : List Char)
    (hh : ∀ c, l.head? = some c → isPySpace c = false)
    (hl : ∀ c, l.getLast? = some c → isPySpace c = false) :
    pyStrip l = l := by
  unfold pyStrip
  rw [dropWhile_eq_self_of_head l hh]
  rw [dropWhile_eq_self_of_head l.reverse
    (fun c hc => hl c (by rwa [List.head?_reverse] at hc))]
  exact List.reverse_reverse l

theorem pyStrip_joinSp (ws : List (List Char))
    (hws : ∀ w ∈ ws, w ≠ [] ∧ ∀ c ∈ w, isPySpace c = false) :
    pyStrip (joinSp ws) = joinSp ws := by
  cases ws with
  | nil => rfl
  | cons w rest =>
    refine pyStrip_eq_self _ ?_ (joinSp_getLast?_nonspace _ hws)
    intro c hc
    obtain ⟨hne, hchars⟩ := hws w (by simp)
    cases hw : w with
    | nil => exact absurd hw hne
    | cons a t =>
      rw [hw] at hc
      simp only [joinSp, List.cons_append, List.head?_cons,
        Option.some.injEq] at hc
      rw [← hc]
      exact hchars a (by simp [hw])

theorem sanitizeChars_eq_normalizeChars (s : List Char) :
    sanitizeChars s = normalizeChars s := by
  unfold sanitizeChars normalizeChars
  by_cases hs : s = []
  · simp [hs]
  · simp only [hs, if_false]
    unfold pySplit
    rw [pySplitGo_map_replWs s []]
    exact pyStrip_joinSp (pySplitGo s []) (pySplitGo_words s [] (by simp))

theorem normalizeChars_idem (s : List Char) :
    normalizeChars (normalizeChars s) = normalizeChars s := by
  by_cases hs : s = []
  · simp [hs, normalizeChars]
  · have hr : normalizeChars s = joinSp (pySplit s) := by
      simp [normalizeChars, hs]
    rw [hr]
    by_cases hr0 : joinSp (pySplit s) = []
    · rw [hr0]; rfl
    · simp only [normalizeChars, hr0, if_false]
      rw [pySplit_joinSp (pySplit s) (pySplitGo_words s [] (by simp))]

/-- C10: sanitize_text and normalize_whitespace agree on every input (the
tab, newline and carriage-return replacement does not change the
whitespace split, and the final strip is the identity on the rejoined
words), and both functions are idempotent. -/
theorem sanitize_eq_normalize_and_idem :
    (∀ s : String, sanitize_text s = normalize_whitespace s)
    ∧ (∀ s : String, normalize_whitespace (normalize_whitespace s)
        = normalize_whitespace s)
    ∧ (∀ s : String, sanitize_text (sanitize_text s) = sanitize_text s) := by
  have hn : ∀ s : String, normalize_whitespace (normalize_whitespace s)
      = normalize_whitespace s := by
    intro s
    unfold normalize_whitespace
    exact congrArg String.mk (normalizeChars_idem s.data)
  have he : ∀ s : String, sanitize_text s = normalize_whitespace s := by
    intro s
    unfold sanitize_text normalize_whitespace
    exact congrArg String.mk (sanitizeChars_eq_normalizeChars s.data)
  refine ⟨he, hn, ?_⟩
  intro s
  rw [he, he, hn]

end QAF
